import Mathlib

/-!
Shallow embedding of the YouTube-transcript gateway service (src/app.py).

Python strings are modelled as `List Char`; Python `str.split`, `str.strip`,
`str.lower` and substring tests (`in`) are embedded below with Python's
semantics (non-overlapping left-to-right splitting, whitespace-run splitting
for the no-argument form, truthiness of the empty string, and so on).
HTTP requests are modelled by the `Authorization` header value (absent or a
string) and the `url` query parameter (absent or a string); the third-party
captioning backend is modelled by the list of transcript tracks it reports
plus an abstract fetch function.
-/

/-- Convert a Lean string literal to the `List Char` representation used
throughout this development. -/
def toL (s : String) : List Char := s.data

/-- The ASCII whitespace characters stripped and split on by Python's
`str.strip()` and `str.split()`.  (Python also handles rarer Unicode
whitespace; none of the properties below depend on those.) -/
def isPySpace (c : Char) : Bool :=
  c == ' ' || c == '\t' || c == '\n' || c == '\r' || c == '\x0b' || c == '\x0c'

/-- Python `str.strip()`: remove leading and trailing whitespace. -/
def pyStrip (s : List Char) : List Char :=
  ((s.dropWhile isPySpace).reverse.dropWhile isPySpace).reverse

/-- `leadsWith pat s` is true when `pat` is an initial segment of `s`. -/
def leadsWith : List Char → List Char → Bool
  | [], _ => true
  | _ :: _, [] => false
  | a :: as, b :: bs => a == b && leadsWith as bs

/-- Python's substring test `sub in s` (true at the empty pattern). -/
def containsSub (pat : List Char) : List Char → Bool
  | [] => pat.isEmpty
  | c :: cs => leadsWith pat (c :: cs) || containsSub pat cs

/-- Split at the first occurrence of `pat`: the part before it and the part
after it, or `none` when `pat` does not occur (always `none` on `[]`). -/
def splitOnce (pat : List Char) : List Char → Option (List Char × List Char)
  | [] => none
  | c :: cs =>
    if leadsWith pat (c :: cs) then some ([], List.drop pat.length (c :: cs))
    else
      match splitOnce pat cs with
      | some (p, q) => some (c :: p, q)
      | none => none

/-- Fuelled worker for Python `str.split(sep)`; `fuel ≥ s.length` makes it
agree with Python (each recursive step strictly shortens the string). -/
def pySplitFuel (pat : List Char) : Nat → List Char → List (List Char)
  | 0, s => [s]
  | Nat.succ n, s =>
    match splitOnce pat s with
    | none => [s]
    | some (p, q) => p :: pySplitFuel pat n q

/-- Python `s.split(sep)` for a non-empty separator `sep`: the maximal list of
parts separated by non-overlapping occurrences of `sep`, scanned left to
right. -/
def pySplit (pat s : List Char) : List (List Char) := pySplitFuel pat s.length s

/-- Worker for Python `str.split()` (no separator): accumulates the current
word (reversed) and emits it at each whitespace run or at the end. -/
def pySplitWsAux : List Char → List Char → List (List Char)
  | [], acc => if acc.isEmpty then [] else [acc.reverse]
  | c :: cs, acc =>
    if isPySpace c then
      (if acc.isEmpty then [] else [acc.reverse]) ++ pySplitWsAux cs []
    else pySplitWsAux cs (c :: acc)

/-- Python `s.split()`: split on runs of whitespace, discarding empty parts. -/
def pySplitWs (s : List Char) : List (List Char) := pySplitWsAux s []

/-- Python `str.lower()`.  `Char.toLower` lowercases exactly the ASCII
letters; this agrees with Python on every comparison performed by the code
(the only lowercased value is compared with the ASCII literal "bearer", and
no character outside A–Z maps onto its letters under Python's `lower`). -/
def pyLower (s : List Char) : List Char := s.map Char.toLower

/-- The part of `s` strictly before the first occurrence of `pat`
(all of `s` when `pat` does not occur): the specification's
"truncated at the first occurrence". -/
def beforeFirstSub (pat : List Char) : List Char → List Char
  | [] => []
  | c :: cs => if leadsWith pat (c :: cs) then [] else c :: beforeFirstSub pat cs

/-- The part of `s` strictly after the first occurrence of `pat`
(`[]` when `pat` does not occur): the specification's
"the substring after the first occurrence". -/
def afterFirstSub (pat : List Char) : List Char → List Char
  | [] => []
  | c :: cs =>
    if leadsWith pat (c :: cs) then List.drop pat.length (c :: cs)
    else afterFirstSub pat cs

/-- The final segment of `s` after the last occurrence of the character `c`
(all of `s` when `c` does not occur): the specification's
"final '/'-separated path segment" when `c` is '/'. -/
def afterLastChar (c : Char) : List Char → List Char
  | [] => []
  | a :: as =>
    if containsSub [c] as then afterLastChar c as
    else if a = c then as else a :: as

instance {ε α : Type} [DecidableEq ε] [DecidableEq α] : DecidableEq (Except ε α)
  | Except.ok a, Except.ok b =>
    if h : a = b then Decidable.isTrue (by rw [h])
    else Decidable.isFalse (fun hc => h (Except.ok.inj hc))
  | Except.error a, Except.error b =>
    if h : a = b then Decidable.isTrue (by rw [h])
    else Decidable.isFalse (fun hc => h (Except.error.inj hc))
  | Except.ok _, Except.error _ => Decidable.isFalse (fun hc => Except.noConfusion hc)
  | Except.error _, Except.ok _ => Decidable.isFalse (fun hc => Except.noConfusion hc)

/-- A Python exception as far as the route's handlers distinguish them:
`ValueError` (handled by the 400 branch) versus any other `Exception`
(handled by the 500 branch); the carried message is `str(e)`. -/
inductive PyErr where
  | valueError (msg : List Char)
  | otherError (msg : List Char)
deriving DecidableEq

/-- One transcript track reported by the captioning backend:
its language code and its generated-vs-manual flag. -/
structure Track where
  language_code : List Char
  is_generated : Bool
deriving DecidableEq

/-- The resolver's selection: the backend track chosen, and whether an
on-the-fly translation to English is requested before fetching. -/
structure Choice where
  track : Track
  translate_to_en : Bool
deriving DecidableEq

/-- One timed caption unit; the code reads only its `text` field
(timing fields pass through opaquely and are not modelled). -/
structure TranscriptPart where
  text : List Char
deriving DecidableEq

/-- A JSON response body: either an error object or a transcript object. -/
inductive Body where
  | errorMsg (msg : List Char)
  | transcriptMsg (txt : List Char)
deriving DecidableEq

/-- An HTTP response: status code and JSON body. -/
structure HttpResponse where
  status : Nat
  body : Body
deriving DecidableEq

/-- The `require_api_key` decorator of src/app.py: `none` means the guard
accepts and invokes the wrapped handler; `some r` means it short-circuits
with response `r`.  Mirrors the Python control flow: `if not auth_header`
(which is also true of the empty string) logs and returns 401 "No
authorization header"; then `scheme, token = auth_header.split()` (a
`ValueError` when the split does not have exactly two parts), the
case-insensitive scheme check and the token comparison, any failure of
which is caught and returned as 401 "Invalid authorization". -/
def require_api_key (api_key : List Char) (authHeader : Option (List Char)) :
    Option HttpResponse :=
  match authHeader with
  | none => some ⟨401, Body.errorMsg (toL "No authorization header")⟩
  | some h =>
    if h.isEmpty then some ⟨401, Body.errorMsg (toL "No authorization header")⟩
    else
      match pySplitWs h with
      | [s, t] =>
        if pyLower s ≠ toL "bearer" then
          some ⟨401, Body.errorMsg (toL "Invalid authorization")⟩
        else if t ≠ api_key then
          some ⟨401, Body.errorMsg (toL "Invalid authorization")⟩
        else none
      | _ => some ⟨401, Body.errorMsg (toL "Invalid authorization")⟩

/-- `get_video_id` of src/app.py: strip the URL, then try the three
recognized shapes in order — `youtu.be` short links
(`url.split('/')[-1].split('?')[0]`), `watch?v=` links
(`url.split('watch?v=')[1].split('&')[0]`), `/shorts/` links
(`url.split('/shorts/')[1].split('?')[0]`) — else raise
`ValueError("Could not extract video ID from URL")`. -/
def get_video_id (url : List Char) : Except PyErr (List Char) :=
  let u := pyStrip url
  if containsSub (toL "youtu.be") u then
    Except.ok ((pySplit (toL "?") ((pySplit (toL "/") u).getLastD [])).getD 0 [])
  else if containsSub (toL "watch?v=") u then
    Except.ok ((pySplit (toL "&") ((pySplit (toL "watch?v=") u).getD 1 [])).getD 0 [])
  else if containsSub (toL "/shorts/") u then
    Except.ok ((pySplit (toL "?") ((pySplit (toL "/shorts/") u).getD 1 [])).getD 0 [])
  else
    Except.error (PyErr.valueError (toL "Could not extract video ID from URL"))

/-- The `manual_transcripts` list built by `get_best_transcript`'s
categorization loop: the language codes of the non-generated tracks, in the
backend's native order. -/
def manual_codes (tracks : List Track) : List (List Char) :=
  (tracks.filter (fun t => !t.is_generated)).map (fun t => t.language_code)

/-- The `generated_transcripts` list built by `get_best_transcript`'s
categorization loop: the language codes of the generated tracks, in the
backend's native order. -/
def generated_codes (tracks : List Track) : List (List Char) :=
  (tracks.filter (fun t => t.is_generated)).map (fun t => t.language_code)

/-- The fixed preference list of src/app.py. -/
def preferred_languages : List (List Char) :=
  [toL "en", toL "es", toL "fr", toL "de", toL "ar"]

/-- The `for lang in preferred_languages: if lang in codes:` scan — the first
preferred language present in `codes`. -/
def first_preferred (codes : List (List Char)) : List (List Char) → Option (List Char)
  | [] => none
  | l :: ls => if codes.contains l then some l else first_preferred codes ls

/-- The backend's `find_manually_created_transcript` / `find_generated_transcript`
for a single language code: the first reported track with the requested
generated flag and language. -/
def find_track (tracks : List Track) (gen : Bool) (lang : List Char) : Option Track :=
  tracks.find? (fun t => t.is_generated == gen && t.language_code == lang)

/-- The selection logic of `get_best_transcript` in src/app.py: scan the
preference list over the manual codes, then over the generated codes,
translating to English on a non-English hit; otherwise fall back to the
first generated code, else the first manual code, translating to English
unconditionally; otherwise raise `Exception("No available transcripts
found")`.  A failed `find` raises the backend's `NoTranscriptFound`
(unreachable under the membership guards, but modelled). -/
def get_best_choice (tracks : List Track) : Except PyErr Choice :=
  let manual := manual_codes tracks
  let gen := generated_codes tracks
  match first_preferred manual preferred_languages with
  | some lang =>
    match find_track tracks false lang with
    | some t => Except.ok ⟨t, lang != toL "en"⟩
    | none => Except.error (PyErr.otherError (toL "NoTranscriptFound"))
  | none =>
    match first_preferred gen preferred_languages with
    | some lang =>
      match find_track tracks true lang with
      | some t => Except.ok ⟨t, lang != toL "en"⟩
      | none => Except.error (PyErr.otherError (toL "NoTranscriptFound"))
    | none =>
      match gen with
      | g0 :: _ =>
        match find_track tracks true g0 with
        | some t => Except.ok ⟨t, true⟩
        | none => Except.error (PyErr.otherError (toL "NoTranscriptFound"))
      | [] =>
        match manual with
        | m0 :: _ =>
          match find_track tracks false m0 with
          | some t => Except.ok ⟨t, true⟩
          | none => Except.error (PyErr.otherError (toL "NoTranscriptFound"))
        | [] => Except.error (PyErr.otherError (toL "No available transcripts found"))

/-- `get_best_transcript` of src/app.py: resolve the best track selection for
the backend-reported `tracks`, then fetch it through the backend (`fetch`
models `transcript.fetch`, with translation already requested per the
selection); any error propagates. -/
def get_best_transcript (tracks : List Track)
    (fetch : Choice → Except PyErr (List TranscriptPart)) :
    Except PyErr (List TranscriptPart) :=
  match get_best_choice tracks with
  | Except.ok ch => fetch ch
  | Except.error e => Except.error e

/-- The `' '.join(part['text'] for part in transcript_parts)` of the route. -/
def join_texts (parts : List TranscriptPart) : List Char :=
  List.intercalate (toL " ") (parts.map (fun p => p.text))

/-- The `GET /transcript` route of src/app.py: the auth guard, then the
`url` parameter check (`if not youtube_url`, also true of the empty
string), then extraction, resolution and fetch, and response shaping;
a `ValueError` is answered with 400 and any other exception with 500,
each carrying `str(e)` in the `error` field. -/
def get_transcript (api_key : List Char) (authHeader : Option (List Char))
    (urlParam : Option (List Char)) (tracks : List Track)
    (fetch : Choice → Except PyErr (List TranscriptPart)) : HttpResponse :=
  match require_api_key api_key authHeader with
  | some resp => resp
  | none =>
    match urlParam with
    | none => ⟨400, Body.errorMsg (toL "YouTube URL is required")⟩
    | some u =>
      if u.isEmpty then ⟨400, Body.errorMsg (toL "YouTube URL is required")⟩
      else
        match get_video_id u with
        | Except.error (PyErr.valueError m) => ⟨400, Body.errorMsg m⟩
        | Except.error (PyErr.otherError m) => ⟨500, Body.errorMsg m⟩
        | Except.ok _ =>
          match get_best_transcript tracks fetch with
          | Except.ok parts => ⟨200, Body.transcriptMsg (join_texts parts)⟩
          | Except.error (PyErr.valueError m) => ⟨400, Body.errorMsg m⟩
          | Except.error (PyErr.otherError m) => ⟨500, Body.errorMsg m⟩

theorem splitOnce_eq_some (pat : List Char) (s : List Char) :
    ∀ p q, splitOnce pat s = some (p, q) →
      p = beforeFirstSub pat s ∧ q = afterFirstSub pat s := by
  induction s with
  | nil => intro p q h; simp [splitOnce] at h
  | cons c cs ih =>
    intro p q h
    by_cases hl : leadsWith pat (c :: cs) = true
    · rw [splitOnce, if_pos hl] at h
      simp only [Option.some.injEq, Prod.mk.injEq] at h
      simp [beforeFirstSub, afterFirstSub, hl, ← h.1, ← h.2]
    · rw [splitOnce, if_neg hl] at h
      cases hso : splitOnce pat cs with
      | none => rw [hso] at h; simp at h
      | some pq =>
        obtain ⟨p', q'⟩ := pq
        rw [hso] at h
        simp only [Option.some.injEq, Prod.mk.injEq] at h
        obtain ⟨h1, h2⟩ := ih p' q' hso
        simp [beforeFirstSub, afterFirstSub, hl, ← h.1, ← h.2, h1, h2]

theorem splitOnce_none_iff (pat : List Char) (hp : pat ≠ []) (s : List Char) :
    splitOnce pat s = none ↔ containsSub pat s = false := by
  induction s with
  | nil =>
    simp [splitOnce, containsSub, List.isEmpty_iff, hp]
  | cons c cs ih =>
    by_cases hl : leadsWith pat (c :: cs) = true
    · rw [splitOnce, if_pos hl]
      simp [containsSub, hl]
    · rw [splitOnce, if_neg hl]
      cases hso : splitOnce pat cs with
      | none =>
        simp only [containsSub, Bool.or_eq_false_iff]
        have := (ih.mp hso)
        simp [this, Bool.not_eq_true] at hl ⊢
        exact hl
      | some pq =>
        obtain ⟨p', q'⟩ := pq
        simp only [containsSub, Bool.or_eq_false_iff]
        constructor
        · intro h; simp at h
        · intro h
          have : splitOnce pat cs = none := ih.mpr h.2
          rw [this] at hso; simp at hso

theorem splitOnce_length (pat : List Char) (hp : pat ≠ []) (s : List Char) :
    ∀ p q, splitOnce pat s = some (p, q) → q.length < s.length := by
  induction s with
  | nil => intro p q h; simp [splitOnce] at h
  | cons c cs ih =>
    intro p q h
    by_cases hl : leadsWith pat (c :: cs) = true
    · rw [splitOnce, if_pos hl] at h
      simp only [Option.some.injEq, Prod.mk.injEq] at h
      rw [← h.2]
      have hlen : 1 ≤ pat.length := by
        cases pat with
        | nil => exact absurd rfl hp
        | cons a as => simp
      calc (List.drop pat.length (c :: cs)).length
          = (c :: cs).length - pat.length := by rw [List.length_drop]
        _ ≤ (c :: cs).length - 1 := by omega
        _ < (c :: cs).length := by simp
    · rw [splitOnce, if_neg hl] at h
      cases hso : splitOnce pat cs with
      | none => rw [hso] at h; simp at h
      | some pq =>
        obtain ⟨p', q'⟩ := pq
        rw [hso] at h
        simp only [Option.some.injEq, Prod.mk.injEq] at h
        have := ih p' q' hso
        rw [← h.2]
        simp only [List.length_cons]
        omega

theorem beforeFirstSub_of_not_contains (pat : List Char) (s : List Char)
    (h : containsSub pat s = false) : beforeFirstSub pat s = s := by
  induction s with
  | nil => rfl
  | cons c cs ih =>
    simp only [containsSub, Bool.or_eq_false_iff] at h
    rw [beforeFirstSub, if_neg (by simp [h.1]), ih h.2]

theorem pySplitFuel_getD_zero (pat : List Char) (hp : pat ≠ []) :
    ∀ fuel s, s.length ≤ fuel →
      (pySplitFuel pat fuel s).getD 0 [] = beforeFirstSub pat s := by
  intro fuel
  cases fuel with
  | zero =>
    intro s hs
    have : s = [] := by
      cases s with
      | nil => rfl
      | cons a as => simp at hs
    subst this; rfl
  | succ n =>
    intro s hs
    cases hso : splitOnce pat s with
    | none =>
      rw [pySplitFuel, hso]
      have hc := (splitOnce_none_iff pat hp s).mp hso
      simp [beforeFirstSub_of_not_contains pat s hc]
    | some pq =>
      obtain ⟨p, q⟩ := pq
      rw [pySplitFuel, hso]
      simp [(splitOnce_eq_some pat s p q hso).1]

theorem pySplit_getD_zero (pat : List Char) (hp : pat ≠ []) (s : List Char) :
    (pySplit pat s).getD 0 [] = beforeFirstSub pat s :=
  pySplitFuel_getD_zero pat hp s.length s (Nat.le_refl _)

theorem pySplit_getD_one (pat : List Char) (hp : pat ≠ [])
    (s : List Char) (hc : containsSub pat s = true) :
    (pySplit pat s).getD 1 [] = beforeFirstSub pat (afterFirstSub pat s) := by
  have hne : s ≠ [] := by
    intro h; subst h
    simp [containsSub, List.isEmpty_iff, hp] at hc
  cases hlen : s.length with
  | zero => exact absurd (List.length_eq_zero.mp hlen) hne
  | succ n =>
    have hso : splitOnce pat s ≠ none := by
      intro h
      rw [(splitOnce_none_iff pat hp s).mp h] at hc
      simp at hc
    cases hso' : splitOnce pat s with
    | none => exact absurd hso' hso
    | some pq =>
      obtain ⟨p, q⟩ := pq
      rw [pySplit, hlen, pySplitFuel, hso']
      simp only [List.getD_cons_succ]
      have hq := (splitOnce_eq_some pat s p q hso').2
      have hql : q.length ≤ n := by
        have := splitOnce_length pat hp s p q hso'
        omega
      rw [pySplitFuel_getD_zero pat hp n q hql, hq]

theorem afterLastChar_of_not_contains (c : Char) (s : List Char)
    (h : containsSub [c] s = false) : afterLastChar c s = s := by
  induction s with
  | nil => rfl
  | cons a as ih =>
    simp only [containsSub, Bool.or_eq_false_iff] at h
    have hca : (c == a) = false := by
      have := h.1
      simpa [leadsWith] using this
    rw [afterLastChar, if_neg (by simp [h.2]),
      if_neg (by intro hac; subst hac; simp at hca)]

theorem afterLastChar_afterFirst (c : Char) (s : List Char)
    (h : containsSub [c] s = true) :
    afterLastChar c s = afterLastChar c (afterFirstSub [c] s) := by
  induction s with
  | nil => simp [containsSub, List.isEmpty_iff] at h
  | cons a as ih =>
    by_cases hl : leadsWith [c] (a :: as) = true
    · have hac : a = c := by
        simp [leadsWith] at hl
        exact hl.symm
      rw [afterFirstSub, if_pos hl]
      simp only [List.drop_succ_cons, List.drop_zero, List.length_cons,
        List.length_nil]
      by_cases hcs : containsSub [c] as = true
      · rw [afterLastChar, if_pos hcs]
      · rw [afterLastChar, if_neg (by simp [Bool.not_eq_true] at hcs ⊢; exact hcs),
          if_pos hac, afterLastChar_of_not_contains c as (by simpa using hcs)]
    · have hcs : containsSub [c] as = true := by
        simp only [containsSub, Bool.or_eq_true] at h
        rcases h with h | h
        · exact absurd h hl
        · exact h
      rw [afterFirstSub, if_neg hl, afterLastChar, if_pos hcs, ih hcs]

theorem pySplitFuel_ne_nil (pat : List Char) (fuel : Nat) (s : List Char) :
    pySplitFuel pat fuel s ≠ [] := by
  cases fuel with
  | zero => simp [pySplitFuel]
  | succ n =>
    rw [pySplitFuel]
    cases splitOnce pat s with
    | none => simp
    | some pq => obtain ⟨p, q⟩ := pq; simp

theorem getLastD_irrel {α : Type} (l : List α) (h : l ≠ []) (d d' : α) :
    l.getLastD d = l.getLastD d' := by
  cases l with
  | nil => exact absurd rfl h
  | cons a as =>
    rw [List.getLastD_eq_getLast?, List.getLastD_eq_getLast?,
      List.getLast?_eq_getLast (a :: as) (by simp)]
    rfl

theorem pySplitFuel_getLastD (c : Char) :
    ∀ fuel s, s.length ≤ fuel →
      (pySplitFuel [c] fuel s).getLastD [] = afterLastChar c s := by
  intro fuel
  induction fuel with
  | zero =>
    intro s hs
    have : s = [] := by
      cases s with
      | nil => rfl
      | cons a as => simp at hs
    subst this; rfl
  | succ n ih =>
    intro s hs
    cases hso : splitOnce [c] s with
    | none =>
      rw [pySplitFuel, hso]
      have hc := (splitOnce_none_iff [c] (by simp) s).mp hso
      simp [afterLastChar_of_not_contains c s hc]
    | some pq =>
      obtain ⟨p, q⟩ := pq
      rw [pySplitFuel, hso]
      have hql : q.length ≤ n := by
        have := splitOnce_length [c] (by simp) s p q hso
        omega
      have hrest := pySplitFuel_ne_nil [c] n q
      rw [List.getLastD_cons, getLastD_irrel _ hrest p [], ih q hql]
      have hcont : containsSub [c] s = true := by
        by_contra hcc
        rw [(splitOnce_none_iff [c] (by simp) s).mpr
          (by simpa using Bool.not_eq_true _ ▸ hcc)] at hso
        simp at hso
      rw [(splitOnce_eq_some [c] s p q hso).2,
        ← afterLastChar_afterFirst c s hcont]

theorem pySplit_getLastD (c : Char) (s : List Char) :
    (pySplit [c] s).getLastD [] = afterLastChar c s :=
  pySplitFuel_getLastD c s.length s (Nat.le_refl _)

theorem contains_iff_mem (codes : List (List Char)) (l : List Char) :
    codes.contains l = true ↔ l ∈ codes := by
  induction codes with
  | nil => simp [List.contains, List.elem]
  | cons c cs ih =>
    simp only [List.contains, List.elem] at ih ⊢
    by_cases h : l = c
    · subst h; simp
    · have hb : (l == c) = false := by simp [h]
      rw [hb]
      simp [List.mem_cons, h, ih]

theorem first_preferred_eq_none (codes : List (List Char)) (pref : List (List Char))
    (h : ∀ l ∈ pref, l ∉ codes) : first_preferred codes pref = none := by
  induction pref with
  | nil => rfl
  | cons p ps ih =>
    rw [first_preferred, if_neg]
    · exact ih (fun l hl => h l (List.mem_cons_of_mem p hl))
    · intro hc
      exact h p (List.mem_cons_self p ps) ((contains_iff_mem codes p).mp hc)

theorem find_track_manual_of_mem (tracks : List Track) (lang : List Char) :
    lang ∈ manual_codes tracks →
    ∃ t, find_track tracks false lang = some t ∧
      t.is_generated = false ∧ t.language_code = lang := by
  induction tracks with
  | nil => intro h; simp [manual_codes] at h
  | cons tr trs ih =>
    intro h
    by_cases hg : tr.is_generated = true
    · have hm : lang ∈ manual_codes trs := by
        simpa [manual_codes, List.filter_cons, hg] using h
      obtain ⟨t, hf, ht⟩ := ih hm
      refine ⟨t, ?_, ht⟩
      rw [find_track, List.find?_cons_of_neg, ← find_track]
      · exact hf
      · simp [hg]
    · have hg' : tr.is_generated = false := Bool.not_eq_true _ ▸ hg
      by_cases he : tr.language_code = lang
      · refine ⟨tr, ?_, hg', he⟩
        rw [find_track, List.find?_cons_of_pos]
        simp [hg', he]
      · have hm : lang ∈ manual_codes trs := by
          simp only [manual_codes, List.filter_cons, hg', Bool.not_false,
            if_pos, List.map_cons, List.mem_cons] at h
          rcases h with h | h
          · exact absurd h.symm he
          · exact h
        obtain ⟨t, hf, ht⟩ := ih hm
        refine ⟨t, ?_, ht⟩
        rw [find_track, List.find?_cons_of_neg, ← find_track]
        · exact hf
        · simp [he]

theorem find_first_generated (tracks : List Track) (t0 : Track) (ts : List Track)
    (h : tracks.filter (fun t => t.is_generated) = t0 :: ts) :
    find_track tracks true t0.language_code = some t0 := by
  induction tracks with
  | nil => simp at h
  | cons tr trs ih =>
    by_cases hg : tr.is_generated = true
    · rw [List.filter_cons_of_pos (by simpa using hg)] at h
      injection h with h1 h2
      subst h1
      rw [find_track, List.find?_cons_of_pos]
      simp [hg]
    · rw [List.filter_cons_of_neg (by simpa using hg)] at h
      rw [find_track, List.find?_cons_of_neg, ← find_track]
      · exact ih h
      · simp [Bool.not_eq_true _ ▸ hg]

theorem find_first_manual (tracks : List Track) (t0 : Track) (ts : List Track)
    (h : tracks.filter (fun t => !t.is_generated) = t0 :: ts) :
    find_track tracks false t0.language_code = some t0 := by
  induction tracks with
  | nil => simp at h
  | cons tr trs ih =>
    by_cases hg : tr.is_generated = true
    · rw [List.filter_cons_of_neg (by simp [hg])] at h
      rw [find_track, List.find?_cons_of_neg, ← find_track]
      · exact ih h
      · simp [hg]
    · have hg' : tr.is_generated = false := Bool.not_eq_true _ ▸ hg
      rw [List.filter_cons_of_pos (by simp [hg'])] at h
      injection h with h1 h2
      subst h1
      rw [find_track, List.find?_cons_of_pos]
      simp [hg']

/-- C1, counterexample: a backend-reported track list that contains a German
manual track and an English generated track, yet whose selected track is not
the German manual one — the list also carries an English manual track, which
the preference scan hits first, so the resolver selects it untranslated.
This refutes the claim's universal statement over all lists merely
containing those two tracks. -/
theorem c1_counterexample :
    (⟨toL "de", false⟩ : Track) ∈
      [(⟨toL "en", false⟩ : Track), ⟨toL "de", false⟩, ⟨toL "en", true⟩] ∧
    (⟨toL "en", true⟩ : Track) ∈
      [(⟨toL "en", false⟩ : Track), ⟨toL "de", false⟩, ⟨toL "en", true⟩] ∧
    get_best_choice [⟨toL "en", false⟩, ⟨toL "de", false⟩, ⟨toL "en", true⟩] =
      Except.ok ⟨⟨toL "en", false⟩, false⟩ ∧
    get_best_choice [⟨toL "en", false⟩, ⟨toL "de", false⟩, ⟨toL "en", true⟩] ≠
      Except.ok ⟨⟨toL "de", false⟩, true⟩ :=
  ⟨by decide, by decide, by decide, by decide⟩

/-- C1, amended: for every backend-reported track list containing a German
manual track and an English generated track, and containing no manual track
in a higher-ranked preferred language (en, es, fr), the resolver selects the
German manual track — translated to English before fetch — rather than the
English generated track: the preference-list scan over the manual set
completes before any generated track is considered. -/
theorem c1_manual_de_beats_generated_en (tracks : List Track)
    (hde : toL "de" ∈ manual_codes tracks)
    (_hgen : toL "en" ∈ generated_codes tracks)
    (hen : toL "en" ∉ manual_codes tracks)
    (hes : toL "es" ∉ manual_codes tracks)
    (hfr : toL "fr" ∉ manual_codes tracks) :
    ∃ t, find_track tracks false (toL "de") = some t ∧
      t.is_generated = false ∧ t.language_code = toL "de" ∧
      get_best_choice tracks = Except.ok ⟨t, true⟩ := by
  have h1 : ¬ (manual_codes tracks).contains (toL "en") = true :=
    fun hc => hen ((contains_iff_mem _ _).mp hc)
  have h2 : ¬ (manual_codes tracks).contains (toL "es") = true :=
    fun hc => hes ((contains_iff_mem _ _).mp hc)
  have h3 : ¬ (manual_codes tracks).contains (toL "fr") = true :=
    fun hc => hfr ((contains_iff_mem _ _).mp hc)
  have h4 : (manual_codes tracks).contains (toL "de") = true :=
    (contains_iff_mem _ _).mpr hde
  have hfp : first_preferred (manual_codes tracks) preferred_languages =
      some (toL "de") := by
    rw [preferred_languages, first_preferred, if_neg h1, first_preferred, if_neg h2,
      first_preferred, if_neg h3, first_preferred, if_pos h4]
  obtain ⟨t, hf, hg, hl⟩ := find_track_manual_of_mem tracks (toL "de") hde
  refine ⟨t, hf, hg, hl, ?_⟩
  have hne : (toL "de" != toL "en") = true := by decide
  simp only [get_best_choice, hfp, hf, hne]

/-- Witness for C1: on the two-track list of the claim's scenario the
resolver selects the German manual track, translated to English. -/
theorem c1_witness :
    get_best_choice [⟨toL "de", false⟩, ⟨toL "en", true⟩] =
      Except.ok ⟨⟨toL "de", false⟩, true⟩ := by
  obtain ⟨t, hf, hg, hl, hok⟩ := c1_manual_de_beats_generated_en
    [⟨toL "de", false⟩, ⟨toL "en", true⟩]
    (by decide) (by decide) (by decide) (by decide) (by decide)
  have ht : find_track [⟨toL "de", false⟩, ⟨toL "en", true⟩] false (toL "de") =
      some ⟨toL "de", false⟩ := by decide
  rw [ht] at hf
  injection hf with hf'
  rw [← hf'] at hok
  exact hok

/-- C4 (confirmed): when no preferred language appears in either the manual
or the generated set, the resolver falls back to the first generated track
in the backend's native ordering, translated to English, when any generated
track exists, and otherwise to the first manual track, translated to
English. -/
theorem c4_fallback_first_native (tracks : List Track)
    (h : ∀ l ∈ preferred_languages,
      l ∉ manual_codes tracks ∧ l ∉ generated_codes tracks) :
    (∀ t0 ts, tracks.filter (fun t => t.is_generated) = t0 :: ts →
      get_best_choice tracks = Except.ok ⟨t0, true⟩) ∧
    (tracks.filter (fun t => t.is_generated) = [] →
      ∀ t0 ts, tracks.filter (fun t => !t.is_generated) = t0 :: ts →
        get_best_choice tracks = Except.ok ⟨t0, true⟩) := by
  have hfp1 : first_preferred (manual_codes tracks) preferred_languages = none :=
    first_preferred_eq_none _ _ (fun l hl => (h l hl).1)
  have hfp2 : first_preferred (generated_codes tracks) preferred_languages = none :=
    first_preferred_eq_none _ _ (fun l hl => (h l hl).2)
  constructor
  · intro t0 ts hfil
    have hgc : generated_codes tracks =
        t0.language_code :: ts.map (fun t => t.language_code) := by
      rw [generated_codes, hfil, List.map_cons]
    have hft := find_first_generated tracks t0 ts hfil
    have hfp2' : first_preferred
        (t0.language_code :: ts.map (fun t => t.language_code))
        preferred_languages = none := hgc ▸ hfp2
    simp only [get_best_choice, hfp1, hgc, hfp2', hft]
  · intro hgen t0 ts hfil
    have hgc : generated_codes tracks = [] := by
      rw [generated_codes, hgen, List.map_nil]
    have hmc : manual_codes tracks =
        t0.language_code :: ts.map (fun t => t.language_code) := by
      rw [manual_codes, hfil, List.map_cons]
    have hft := find_first_manual tracks t0 ts hfil
    have hfp1' : first_preferred
        (t0.language_code :: ts.map (fun t => t.language_code))
        preferred_languages = none := hmc ▸ hfp1
    have hfpnil : first_preferred ([] : List (List Char)) preferred_languages = none := by
      decide
    simp only [get_best_choice, hfp1', hgc, hfpnil, hmc, hft]

/-- Witness for C4: a list with only a Portuguese manual track and a Japanese
generated track resolves to the Japanese generated track, translated. -/
theorem c4_witness :
    get_best_choice [⟨toL "pt", false⟩, ⟨toL "ja", true⟩] =
      Except.ok ⟨⟨toL "ja", true⟩, true⟩ :=
  (c4_fallback_first_native [⟨toL "pt", false⟩, ⟨toL "ja", true⟩] (by decide)).1
    ⟨toL "ja", true⟩ [] (by decide)

theorem require_api_key_eval (api_key h : List Char) (hne : h ≠ []) :
    require_api_key api_key (some h) =
      match pySplitWs h with
      | [s, t] =>
        if pyLower s ≠ toL "bearer" then
          some ⟨401, Body.errorMsg (toL "Invalid authorization")⟩
        else if t ≠ api_key then
          some ⟨401, Body.errorMsg (toL "Invalid authorization")⟩
        else none
      | _ => some ⟨401, Body.errorMsg (toL "Invalid authorization")⟩ := by
  have hie : h.isEmpty = false := by
    cases h with
    | nil => exact absurd rfl hne
    | cons a as => rfl
  simp only [require_api_key]
  rw [if_neg (by simp [hie])]

theorem require_api_key_two (api_key h s t : List Char)
    (hsp : pySplitWs h = [s, t]) :
    require_api_key api_key (some h) =
      (if pyLower s ≠ toL "bearer" then
        some ⟨401, Body.errorMsg (toL "Invalid authorization")⟩
      else if t ≠ api_key then
        some ⟨401, Body.errorMsg (toL "Invalid authorization")⟩
      else none) := by
  have hne : h ≠ [] := by
    intro hh; subst hh; exact List.noConfusion hsp
  rw [require_api_key_eval api_key h hne, hsp]

theorem require_api_key_other (api_key h : List Char) (hne : h ≠ [])
    (hsp : ∀ s t, pySplitWs h ≠ [s, t]) :
    require_api_key api_key (some h) =
      some ⟨401, Body.errorMsg (toL "Invalid authorization")⟩ := by
  rw [require_api_key_eval api_key h hne]
  rcases hs : pySplitWs h with _ | ⟨s, _ | ⟨t, _ | ⟨w, rest⟩⟩⟩
  · rfl
  · rfl
  · exact absurd hs (hsp s t)
  · rfl

/-- C10, counterexample: an Authorization header that is present with the
empty value is rejected with the body of the missing-header case, not with
the generic invalid-authorization body the claim predicts for every
non-accepted present value (Python's `if not auth_header` is also true of
the empty string). -/
theorem c10_counterexample :
    require_api_key (toL "secret") (some []) =
      some ⟨401, Body.errorMsg (toL "No authorization header")⟩ ∧
    Body.errorMsg (toL "No authorization header") ≠
      Body.errorMsg (toL "Invalid authorization") :=
  ⟨by decide, by decide⟩

/-- C10, amended: the auth guard is a total function of the header value.
It accepts exactly when the value splits on whitespace into two tokens whose
first token lowercased is "bearer" and whose second equals the configured
secret; every other nonempty value is rejected with 401 and body
`error: Invalid authorization`; the empty value is treated like a missing
header and rejected with 401 and body `error: No authorization header`. -/
theorem c10_auth_guard_total (api_key h : List Char) :
    (h = [] → require_api_key api_key (some h) =
      some ⟨401, Body.errorMsg (toL "No authorization header")⟩) ∧
    (h ≠ [] → (require_api_key api_key (some h) = none ↔
      ∃ s t, pySplitWs h = [s, t] ∧ pyLower s = toL "bearer" ∧ t = api_key)) ∧
    (h ≠ [] → require_api_key api_key (some h) ≠ none →
      require_api_key api_key (some h) =
        some ⟨401, Body.errorMsg (toL "Invalid authorization")⟩) := by
  refine ⟨fun hh => by subst hh; rfl, fun hne => ?_, fun hne => ?_⟩
  · constructor
    · intro hacc
      rcases hs : pySplitWs h with _ | ⟨s, _ | ⟨t, _ | ⟨w, rest⟩⟩⟩
      · rw [require_api_key_other api_key h hne
          (fun s' t' hc => by rw [hs] at hc; simp at hc)] at hacc
        exact absurd hacc (by simp)
      · rw [require_api_key_other api_key h hne
          (fun s' t' hc => by rw [hs] at hc; simp at hc)] at hacc
        exact absurd hacc (by simp)
      · rw [require_api_key_two api_key h s t hs] at hacc
        by_cases hb : pyLower s = toL "bearer"
        · by_cases ht : t = api_key
          · exact ⟨s, t, rfl, hb, ht⟩
          · rw [if_neg (by simpa using hb), if_pos (by simpa using ht)] at hacc
            exact absurd hacc (by simp)
        · rw [if_pos (by simpa using hb)] at hacc
          exact absurd hacc (by simp)
      · rw [require_api_key_other api_key h hne
          (fun s' t' hc => by rw [hs] at hc; simp at hc)] at hacc
        exact absurd hacc (by simp)
    · rintro ⟨s, t, hs, hb, ht⟩
      rw [require_api_key_two api_key h s t hs, if_neg (by simpa using hb),
        if_neg (by simpa using ht)]
  · intro hno
    rcases hs : pySplitWs h with _ | ⟨s, _ | ⟨t, _ | ⟨w, rest⟩⟩⟩
    · exact require_api_key_other api_key h hne
        (fun s' t' hc => by rw [hs] at hc; simp at hc)
    · exact require_api_key_other api_key h hne
        (fun s' t' hc => by rw [hs] at hc; simp at hc)
    · rw [require_api_key_two api_key h s t hs]
      by_cases hb : pyLower s = toL "bearer"
      · by_cases ht : t = api_key
        · exfalso
          apply hno
          rw [require_api_key_two api_key h s t hs, if_neg (by simpa using hb),
            if_neg (by simpa using ht)]
        · rw [if_neg (by simpa using hb), if_pos (by simpa using ht)]
      · rw [if_pos (by simpa using hb)]
    · exact require_api_key_other api_key h hne
        (fun s' t' hc => by rw [hs] at hc; simp at hc)

/-- Witness for C10: a well-formed header with an upper-case scheme and the
right token is accepted (case-insensitive scheme matching). -/
theorem c10_witness :
    require_api_key (toL "secret") (some (toL "BEARER secret")) = none :=
  ((c10_auth_guard_total (toL "secret") (toL "BEARER secret")).2.1
    (by decide)).mpr ⟨toL "BEARER", toL "secret", by decide, by decide, rfl⟩

/-- C3 (confirmed): whatever the url query parameter (absent, empty, valid
or invalid) and whatever the backend would report, a request with a missing
Authorization header is answered 401 with body `error: No authorization
header`, and a request whose header has a non-bearer scheme, a wrong token,
or does not split into exactly two tokens is answered 401 with body
`error: Invalid authorization`.  (The code treats an empty header value as a
missing header, hence the nonemptiness proviso in the last conjunct.) -/
theorem c3_auth_failures_401 (api_key : List Char) (urlParam : Option (List Char))
    (tracks : List Track) (fetch : Choice → Except PyErr (List TranscriptPart)) :
    get_transcript api_key none urlParam tracks fetch =
      ⟨401, Body.errorMsg (toL "No authorization header")⟩ ∧
    (∀ h s t, pySplitWs h = [s, t] → pyLower s ≠ toL "bearer" →
      get_transcript api_key (some h) urlParam tracks fetch =
        ⟨401, Body.errorMsg (toL "Invalid authorization")⟩) ∧
    (∀ h s t, pySplitWs h = [s, t] → pyLower s = toL "bearer" → t ≠ api_key →
      get_transcript api_key (some h) urlParam tracks fetch =
        ⟨401, Body.errorMsg (toL "Invalid authorization")⟩) ∧
    (∀ h, h ≠ [] → (∀ s t, pySplitWs h ≠ [s, t]) →
      get_transcript api_key (some h) urlParam tracks fetch =
        ⟨401, Body.errorMsg (toL "Invalid authorization")⟩) := by
  have hne : ∀ (h s t : List Char), pySplitWs h = [s, t] → h ≠ [] := by
    intro h s t hsp hh
    subst hh
    exact List.noConfusion hsp
  refine ⟨by simp only [get_transcript, require_api_key], ?_, ?_, ?_⟩
  · intro h s t hsp hb
    have hreq : require_api_key api_key (some h) =
        some ⟨401, Body.errorMsg (toL "Invalid authorization")⟩ := by
      rw [require_api_key_two api_key h s t hsp, if_pos (by simpa using hb)]
    simp only [get_transcript, hreq]
  · intro h s t hsp hb ht
    have hreq : require_api_key api_key (some h) =
        some ⟨401, Body.errorMsg (toL "Invalid authorization")⟩ := by
      rw [require_api_key_two api_key h s t hsp, if_neg (by simpa using hb),
        if_pos (by simpa using ht)]
    simp only [get_transcript, hreq]
  · intro h hh hsp
    have hreq : require_api_key api_key (some h) =
        some ⟨401, Body.errorMsg (toL "Invalid authorization")⟩ :=
      require_api_key_other api_key h hh hsp
    simp only [get_transcript, hreq]

/-- Witness for C3: concrete 401 responses for a missing header, a
non-bearer scheme, a wrong token, and a malformed three-token header. -/
theorem c3_witness :
    get_transcript (toL "secret") none (some (toL "https://youtu.be/abc")) []
      (fun _ => Except.ok []) = ⟨401, Body.errorMsg (toL "No authorization header")⟩ ∧
    get_transcript (toL "secret") (some (toL "Basic abc"))
      (some (toL "https://youtu.be/abc")) [] (fun _ => Except.ok []) =
      ⟨401, Body.errorMsg (toL "Invalid authorization")⟩ ∧
    get_transcript (toL "secret") (some (toL "bearer wrong"))
      (some (toL "https://youtu.be/abc")) [] (fun _ => Except.ok []) =
      ⟨401, Body.errorMsg (toL "Invalid authorization")⟩ ∧
    get_transcript (toL "secret") (some (toL "bearer a b")) none []
      (fun _ => Except.ok []) = ⟨401, Body.errorMsg (toL "Invalid authorization")⟩ := by
  refine ⟨(c3_auth_failures_401 _ _ _ _).1, ?_, ?_, ?_⟩
  · exact (c3_auth_failures_401 _ _ _ _).2.1 (toL "Basic abc") (toL "Basic")
      (toL "abc") (by decide) (by decide)
  · exact (c3_auth_failures_401 _ _ _ _).2.2.1 (toL "bearer wrong") (toL "bearer")
      (toL "wrong") (by decide) (by decide) (by decide)
  · exact (c3_auth_failures_401 _ _ _ _).2.2.2 (toL "bearer a b") (by decide)
      (fun s t hEq => by
        rw [(by decide : pySplitWs (toL "bearer a b") =
          [toL "bearer", toL "a", toL "b"])] at hEq
        simp at hEq)

/-- C5 (confirmed): when the backend reports zero transcript tracks,
resolution fails with the no-transcripts error ("No available transcripts
found", the code's NoTranscriptAvailableError), and a request that reaches
the resolution step — authenticated, with a nonempty url parameter from
which a video id was extracted — is answered 500 with that failure message
in the error field. -/
theorem c5_zero_tracks_500 (api_key : List Char) (authHeader : Option (List Char))
    (u vid : List Char) (fetch : Choice → Except PyErr (List TranscriptPart))
    (hreq : require_api_key api_key authHeader = none)
    (hu : u.isEmpty = false)
    (hv : get_video_id u = Except.ok vid) :
    get_best_transcript [] fetch =
      Except.error (PyErr.otherError (toL "No available transcripts found")) ∧
    get_transcript api_key authHeader (some u) [] fetch =
      ⟨500, Body.errorMsg (toL "No available transcripts found")⟩ := by
  constructor
  · rfl
  · simp only [get_transcript, hreq, hu, hv]
    rfl

/-- Witness for C5: a concrete authenticated request over an empty track
list is answered 500 with the no-transcripts message. -/
theorem c5_witness :
    get_transcript (toL "secret") (some (toL "bearer secret"))
      (some (toL "https://youtu.be/abc")) [] (fun _ => Except.ok []) =
      ⟨500, Body.errorMsg (toL "No available transcripts found")⟩ :=
  (c5_zero_tracks_500 (toL "secret") (some (toL "bearer secret"))
    (toL "https://youtu.be/abc") (toL "abc") (fun _ => Except.ok [])
    (by decide) (by decide) (by decide)).2

/-- C9 (confirmed): whenever resolution returns a sequence of transcript
parts, the 200 response's transcript field is exactly the parts' text fields
joined with a single space, in the parts' original order
(`List.intercalate` of the texts with a one-space separator). -/
theorem c9_join_response (api_key : List Char) (authHeader : Option (List Char))
    (u vid : List Char) (tracks : List Track)
    (fetch : Choice → Except PyErr (List TranscriptPart))
    (parts : List TranscriptPart)
    (hreq : require_api_key api_key authHeader = none)
    (hu : u.isEmpty = false)
    (hv : get_video_id u = Except.ok vid)
    (hres : get_best_transcript tracks fetch = Except.ok parts) :
    get_transcript api_key authHeader (some u) tracks fetch =
      ⟨200, Body.transcriptMsg
        (List.intercalate (toL " ") (parts.map (fun p => p.text)))⟩ := by
  simp only [get_transcript, hreq, hu, hv, hres]
  rfl

/-- Witness for C9: the parts "Hello", "world" yield the transcript
"Hello world". -/
theorem c9_witness :
    get_transcript (toL "secret") (some (toL "bearer secret"))
      (some (toL "https://youtu.be/abc")) [⟨toL "en", false⟩]
      (fun _ => Except.ok [⟨toL "Hello"⟩, ⟨toL "world"⟩]) =
      ⟨200, Body.transcriptMsg (toL "Hello world")⟩ := by
  rw [c9_join_response (toL "secret") (some (toL "bearer secret"))
    (toL "https://youtu.be/abc") (toL "abc") [⟨toL "en", false⟩]
    (fun _ => Except.ok [⟨toL "Hello"⟩, ⟨toL "world"⟩])
    [⟨toL "Hello"⟩, ⟨toL "world"⟩]
    (by decide) (by decide) (by decide) (by decide)]
  decide

/-- C8 (confirmed): a URL that, after trimming, contains none of the three
markers makes the extractor fail with the `ValueError` "Could not extract
video ID from URL"; an authenticated request carrying such a (nonempty) url
parameter is answered 400 with that extraction message in the error field
(an empty url parameter is rejected earlier, by the url-presence check,
before extraction is reached). -/
theorem c8_no_shape_400 (url : List Char)
    (hy : containsSub (toL "youtu.be") (pyStrip url) = false)
    (hw : containsSub (toL "watch?v=") (pyStrip url) = false)
    (hs : containsSub (toL "/shorts/") (pyStrip url) = false) :
    get_video_id url =
      Except.error (PyErr.valueError (toL "Could not extract video ID from URL")) ∧
    (url.isEmpty = false →
      ∀ api_key authHeader tracks fetch, require_api_key api_key authHeader = none →
        get_transcript api_key authHeader (some url) tracks fetch =
          ⟨400, Body.errorMsg (toL "Could not extract video ID from URL")⟩) := by
  have hvid : get_video_id url =
      Except.error (PyErr.valueError (toL "Could not extract video ID from URL")) := by
    simp only [get_video_id, hy, hw, hs]
    rfl
  refine ⟨hvid, fun hu api_key authHeader tracks fetch hreq => ?_⟩
  simp only [get_transcript, hreq, hu, hvid]
  rfl

/-- Witness for C8: a concrete unrecognized URL is rejected by the extractor
and answered 400 through the route. -/
theorem c8_witness :
    get_video_id (toL "https://example.com/x") =
      Except.error (PyErr.valueError (toL "Could not extract video ID from URL")) ∧
    get_transcript (toL "secret") (some (toL "bearer secret"))
      (some (toL "https://example.com/x")) [] (fun _ => Except.ok []) =
      ⟨400, Body.errorMsg (toL "Could not extract video ID from URL")⟩ :=
  ⟨(c8_no_shape_400 (toL "https://example.com/x") (by decide) (by decide)
      (by decide)).1,
    (c8_no_shape_400 (toL "https://example.com/x") (by decide) (by decide)
      (by decide)).2 (by decide) (toL "secret") (some (toL "bearer secret")) []
      (fun _ => Except.ok []) (by decide)⟩

/-- C2, counterexample: the pathologically formed URL
"https://www.youtube.com/watch?v=&foo=1" matches the watch?v= shape and is
accepted by the extractor, which returns the EMPTY string — refuting the
claimed non-emptiness invariant. -/
theorem c2_counterexample :
    containsSub (toL "watch?v=")
      (pyStrip (toL "https://www.youtube.com/watch?v=&foo=1")) = true ∧
    get_video_id (toL "https://www.youtube.com/watch?v=&foo=1") = Except.ok [] :=
  ⟨by decide, by decide⟩

/-- C2, amended: for every raw URL accepted by the extractor (matching one
of the three recognized shapes after trimming), extraction succeeds and
returns a string — which may be empty, since no non-emptiness validation is
performed on the extracted token. -/
theorem c2_accepted_yields_ok (url : List Char)
    (h : containsSub (toL "youtu.be") (pyStrip url) = true ∨
      containsSub (toL "watch?v=") (pyStrip url) = true ∨
      containsSub (toL "/shorts/") (pyStrip url) = true) :
    ∀ e, get_video_id url ≠ Except.error e := by
  intro e
  simp only [get_video_id]
  by_cases h1 : containsSub (toL "youtu.be") (pyStrip url) = true
  · rw [if_pos h1]; exact fun hc => Except.noConfusion hc
  · rw [if_neg h1]
    by_cases h2 : containsSub (toL "watch?v=") (pyStrip url) = true
    · rw [if_pos h2]; exact fun hc => Except.noConfusion hc
    · rw [if_neg h2]
      by_cases h3 : containsSub (toL "/shorts/") (pyStrip url) = true
      · rw [if_pos h3]; exact fun hc => Except.noConfusion hc
      · rcases h with h | h | h
        · exact absurd h h1
        · exact absurd h h2
        · exact absurd h h3

/-- Witness for C2: a well-formed short link is accepted (never an error). -/
theorem c2_witness :
    get_video_id (toL "https://youtu.be/abc") ≠
      Except.error (PyErr.valueError (toL "Could not extract video ID from URL")) :=
  c2_accepted_yields_ok (toL "https://youtu.be/abc") (Or.inl (by decide)) _

/-- C6, counterexample: on a URL in which "watch?v=" occurs twice and no "&"
follows, the code returns the window up to the SECOND occurrence ("ab"),
while the claim's formula — the substring after the first "watch?v="
truncated only at the next "&" — predicts "abwatch?v=cd". -/
theorem c6_counterexample :
    containsSub (toL "youtu.be")
      (pyStrip (toL "https://www.youtube.com/watch?v=abwatch?v=cd")) = false ∧
    containsSub (toL "watch?v=")
      (pyStrip (toL "https://www.youtube.com/watch?v=abwatch?v=cd")) = true ∧
    get_video_id (toL "https://www.youtube.com/watch?v=abwatch?v=cd") =
      Except.ok (toL "ab") ∧
    beforeFirstSub (toL "&") (afterFirstSub (toL "watch?v=")
      (pyStrip (toL "https://www.youtube.com/watch?v=abwatch?v=cd"))) =
      toL "abwatch?v=cd" ∧
    toL "ab" ≠ toL "abwatch?v=cd" :=
  ⟨by decide, by decide, by decide, by decide, by decide⟩

/-- C6, amended: for every URL that, after trimming, does not contain
"youtu.be" but contains "watch?v=", the extractor returns the substring
after the first "watch?v=" truncated at the next "&" or at the next
occurrence of "watch?v=", whichever comes first (to the end of the string
when neither follows). -/
theorem c6_watch_rule (url : List Char)
    (hy : containsSub (toL "youtu.be") (pyStrip url) = false)
    (hw : containsSub (toL "watch?v=") (pyStrip url) = true) :
    get_video_id url =
      Except.ok (beforeFirstSub (toL "&") (beforeFirstSub (toL "watch?v=")
        (afterFirstSub (toL "watch?v=") (pyStrip url)))) := by
  simp only [get_video_id]
  rw [if_neg (by simp [hy]), if_pos hw]
  rw [pySplit_getD_one (toL "watch?v=") (by decide) (pyStrip url) hw,
    pySplit_getD_zero (toL "&") (by decide)]

/-- Witness for C6: on a well-formed watch URL the rule yields "abc". -/
theorem c6_witness :
    get_video_id (toL "https://www.youtube.com/watch?v=abc&t=1") =
      Except.ok (beforeFirstSub (toL "&") (beforeFirstSub (toL "watch?v=")
        (afterFirstSub (toL "watch?v=")
          (pyStrip (toL "https://www.youtube.com/watch?v=abc&t=1"))))) ∧
    beforeFirstSub (toL "&") (beforeFirstSub (toL "watch?v=")
      (afterFirstSub (toL "watch?v=")
        (pyStrip (toL "https://www.youtube.com/watch?v=abc&t=1")))) = toL "abc" :=
  ⟨c6_watch_rule (toL "https://www.youtube.com/watch?v=abc&t=1")
    (by decide) (by decide), by decide⟩

/-- C7 (confirmed): for every URL that, after trimming, contains the
short-link marker "youtu.be", the extractor returns the final '/'-separated
path segment truncated at the first '?', and this rule takes precedence over
the other two (its hypothesis alone determines the result, whether or not
"watch?v=" or "/shorts/" also occur). -/
theorem c7_shortlink_rule (url : List Char)
    (h : containsSub (toL "youtu.be") (pyStrip url) = true) :
    get_video_id url =
      Except.ok (beforeFirstSub (toL "?") (afterLastChar '/' (pyStrip url))) := by
  simp only [get_video_id]
  rw [if_pos h]
  have h1 : (pySplit (toL "/") (pyStrip url)).getLastD [] =
      afterLastChar '/' (pyStrip url) := pySplit_getLastD '/' (pyStrip url)
  rw [h1, pySplit_getD_zero (toL "?") (by decide)]

/-- Witness for C7: a short link that also contains "watch?v=" in its query
is still handled by the short-link rule, yielding "abc". -/
theorem c7_witness :
    get_video_id (toL "https://youtu.be/abc?watch?v=zzz") =
      Except.ok (beforeFirstSub (toL "?") (afterLastChar '/'
        (pyStrip (toL "https://youtu.be/abc?watch?v=zzz")))) ∧
    beforeFirstSub (toL "?") (afterLastChar '/'
      (pyStrip (toL "https://youtu.be/abc?watch?v=zzz"))) = toL "abc" :=
  ⟨c7_shortlink_rule (toL "https://youtu.be/abc?watch?v=zzz") (by decide),
    by decide⟩
